import Mathlib

/-!
Verification of the orbit-camera math kernel (`src/util.rs`).

The machine floating-point numbers (`f32` / `f64`) are modelled as real
numbers, so every floating-point operation is its exact real counterpart;
`f64 -> f32` precision casts (`as_vec3`, `as_quat`, `as f32`) are modelled as
the identity.  `f64::atan2` is modelled through `Complex.arg`, which has the
same sign conventions (range `(-pi, pi]`, value `0` at the origin).
-/

open scoped Classical

namespace Orbit

/-- Real-valued model of a `glam` `DVec3`.  The single-precision `Vec3` is the
same structure (see `Vec3` below), since both precisions are modelled as real
numbers. -/
@[ext]
structure DVec3 where
  x : ℝ
  y : ℝ
  z : ℝ

/-- `bevy::math::Vec3`, modelled identically to `DVec3`. -/
abbrev Vec3 := DVec3

/-- Componentwise vector addition (`glam` `Add for DVec3`). -/
def DVec3.add (a b : DVec3) : DVec3 := ⟨a.x + b.x, a.y + b.y, a.z + b.z⟩

/-- Componentwise vector subtraction (`glam` `Sub for DVec3`). -/
def DVec3.sub (a b : DVec3) : DVec3 := ⟨a.x - b.x, a.y - b.y, a.z - b.z⟩

/-- Scalar multiplication (`glam` `Mul<f64> for DVec3`). -/
def DVec3.smul (a : DVec3) (s : ℝ) : DVec3 := ⟨a.x * s, a.y * s, a.z * s⟩

/-- Dot product (`glam` `DVec3::dot`). -/
def DVec3.dot (a b : DVec3) : ℝ := a.x * b.x + a.y * b.y + a.z * b.z

/-- Cross product (`glam` `DVec3::cross`). -/
def DVec3.cross (a b : DVec3) : DVec3 :=
  ⟨a.y * b.z - a.z * b.y, a.z * b.x - a.x * b.z, a.x * b.y - a.y * b.x⟩

/-- Euclidean length (`glam` `DVec3::length`, i.e. `self.dot(self).sqrt()`). -/
noncomputable def DVec3.length (v : DVec3) : ℝ := Real.sqrt (v.dot v)

/-- Linear interpolation (`glam` `DVec3::lerp`: `self + ((rhs - self) * s)`). -/
noncomputable def DVec3.lerp (a b : DVec3) (s : ℝ) : DVec3 := a.add ((b.sub a).smul s)

/-- Model of the `f64 -> f32` cast `DVec3::as_vec3` (identity on reals). -/
def DVec3.as_vec3 (v : DVec3) : DVec3 := v

/-- The `[DVec3; 3]` axis-triple argument of the two kernel functions. -/
structure Axis3 where
  a0 : DVec3
  a1 : DVec3
  a2 : DVec3

/-- An axis triple is orthonormal when its three vectors are unit length and
pairwise orthogonal. -/
def Axis3.Orthonormal (a : Axis3) : Prop :=
  a.a0.dot a.a0 = 1 ∧ a.a1.dot a.a1 = 1 ∧ a.a2.dot a.a2 = 1 ∧
  a.a0.dot a.a1 = 0 ∧ a.a0.dot a.a2 = 0 ∧ a.a1.dot a.a2 = 0

/-- Column-major 3x3 matrix (`glam` `DMat3`), stored as its three columns. -/
structure DMat3 where
  x_axis : DVec3
  y_axis : DVec3
  z_axis : DVec3

/-- `glam` `DMat3::from_cols`. -/
def DMat3.from_cols (c0 c1 c2 : DVec3) : DMat3 := ⟨c0, c1, c2⟩

/-- Matrix-vector product (`glam` `Mul<DVec3> for DMat3`:
`x_axis * v.x + y_axis * v.y + z_axis * v.z`). -/
def DMat3.mul_vec3 (m : DMat3) (v : DVec3) : DVec3 :=
  ((m.x_axis.smul v.x).add (m.y_axis.smul v.y)).add (m.z_axis.smul v.z)

/-- Real-valued model of a `glam` `DQuat` quaternion. -/
@[ext]
structure DQuat where
  x : ℝ
  y : ℝ
  z : ℝ
  w : ℝ

/-- `bevy::math::Quat`, modelled identically to `DQuat`. -/
abbrev Quat := DQuat

/-- `glam` `DQuat::from_axis_angle`:
`(axis * sin(angle * 0.5)).extend(cos(angle * 0.5))`. -/
noncomputable def DQuat.from_axis_angle (axis : DVec3) (angle : ℝ) : DQuat :=
  ⟨axis.x * Real.sin (angle * 0.5), axis.y * Real.sin (angle * 0.5),
   axis.z * Real.sin (angle * 0.5), Real.cos (angle * 0.5)⟩

/-- Hamilton product (`glam` `Mul<DQuat> for DQuat`). -/
def DQuat.mul (q r : DQuat) : DQuat :=
  ⟨q.w * r.x + q.x * r.w + q.y * r.z - q.z * r.y,
   q.w * r.y + q.y * r.w + q.z * r.x - q.x * r.z,
   q.w * r.z + q.z * r.w + q.x * r.y - q.y * r.x,
   q.w * r.w - q.x * r.x - q.y * r.y - q.z * r.z⟩

/-- Quaternion rotation of a vector (`glam` `DQuat::mul_vec3`:
`v * (w*w - b.dot(b)) + b * (v.dot(b) * 2) + b.cross(v) * (w * 2)` where `b`
is the vector part). -/
def DQuat.mul_vec3 (q : DQuat) (v : DVec3) : DVec3 :=
  let b : DVec3 := ⟨q.x, q.y, q.z⟩
  ((v.smul (q.w * q.w - b.dot b)).add (b.smul (v.dot b * 2))).add
    ((b.cross v).smul (q.w * 2))

/-- `glam` `DQuat::IDENTITY`. -/
def DQuat.IDENTITY : DQuat := ⟨0, 0, 0, 1⟩

/-- Model of the `f64 -> f32` cast `DQuat::as_quat` (identity on reals). -/
def DQuat.as_quat (q : DQuat) : DQuat := q

/-- `bevy` `Transform` (translation, rotation, scale). -/
structure Transform where
  translation : Vec3
  rotation : Quat
  scale : Vec3

/-- `bevy` `Transform::IDENTITY`. -/
def Transform.IDENTITY : Transform := ⟨⟨0, 0, 0⟩, DQuat.IDENTITY, ⟨1, 1, 1⟩⟩

/-- The fields of `bevy` `PerspectiveProjection` relevant to the kernel (none
of its fields are read or written by `update_orbit_transform`). -/
structure PerspectiveProjection where
  fov : ℝ
  near : ℝ
  far : ℝ

/-- The fields of `bevy` `OrthographicProjection` read or written by
`update_orbit_transform`. -/
structure OrthographicProjection where
  near : ℝ
  far : ℝ
  scale : ℝ

/-- `bevy` `Projection` enum. -/
inductive Projection where
  | Perspective (p : PerspectiveProjection)
  | Orthographic (p : OrthographicProjection)

/-- Model of `f64::atan2` (`self.atan2(other)` with `self = y`, `other = x`):
the angle of the point `(x, y)`, in `(-pi, pi]`, with `atan2 0 0 = 0`, exactly
the conventions of `Complex.arg`. -/
noncomputable def atan2 (y x : ℝ) : ℝ := Complex.arg ⟨x, y⟩

/-- `src/util.rs` line 6: `const EPSILON: f32 = 0.001;` (also used, cast to
`f64`, by `approx_equal_f64`). -/
def EPSILON : ℝ := 0.001

/-- `src/util.rs` `approx_equal`: `(a - b).abs() < EPSILON`.  The `bool`
result is modelled as a proposition. -/
def approx_equal (a b : ℝ) : Prop := |a - b| < EPSILON

/-- `src/util.rs` `approx_equal_f64`: `(a - b).abs() < EPSILON as f64`. -/
def approx_equal_f64 (a b : ℝ) : Prop := |a - b| < EPSILON

/-- `src/util.rs` lines 14-18 of `calculate_from_translation_and_focus`:
`radius = comp_vec.length()`, floored to `0.05` when it is exactly `0.0`. -/
noncomputable def floored_radius (comp_vec : DVec3) : ℝ :=
  if comp_vec.length = 0 then 0.05 else comp_vec.length

/-- `src/util.rs` lines 13 and 19 of `calculate_from_translation_and_focus`:
the offset vector multiplied by `DMat3::from_cols(axis[0], axis[1], axis[2])`.
Its `y` component divided by `floored_radius` is the argument given to
`asin`. -/
def local_offset (comp_vec : DVec3) (axis : Axis3) : DVec3 :=
  (DMat3.from_cols axis.a0 axis.a1 axis.a2).mul_vec3 comp_vec

/-- `src/util.rs` `calculate_from_translation_and_focus` (lines 8-23):
`comp_vec = translation - focus`; radius is the floored length; the offset is
taken into the axis basis; `yaw = comp_vec.x.atan2(comp_vec.z)`;
`pitch = (comp_vec.y / radius).asin()`. -/
noncomputable def calculate_from_translation_and_focus
    (translation focus : DVec3) (axis : Axis3) : ℝ × ℝ × ℝ :=
  let comp_vec := translation.sub focus
  (atan2 (local_offset comp_vec axis).x (local_offset comp_vec axis).z,
   Real.arcsin ((local_offset comp_vec axis).y / floored_radius comp_vec),
   floored_radius comp_vec)

/-- `src/util.rs` lines 37-41: when the projection is orthographic the radius
used for positioning is overridden to `(near + far) / 2`; a perspective
projection leaves the incoming radius unchanged. -/
noncomputable def effective_radius (projection : Projection) (radius : ℝ) : ℝ :=
  match projection with
  | .Orthographic p => (p.near + p.far) / 2
  | .Perspective _ => radius

/-- `src/util.rs` line 38: when the projection is orthographic its `scale`
field is set to the incoming radius; a perspective projection is not
mutated. -/
def updated_projection (projection : Projection) (radius : ℝ) : Projection :=
  match projection with
  | .Orthographic p => .Orthographic ⟨p.near, p.far, radius⟩
  | .Perspective p => .Perspective p

/-- The three output parameters mutated by `update_orbit_transform`
(`&mut Transform`, `&mut DVec3`, `&mut Projection`), gathered as a result
record. -/
structure OrbitUpdate where
  transform : Transform
  position : DVec3
  projection : Projection

/-- `src/util.rs` `update_orbit_transform` (lines 26-50), with the three `&mut`
output parameters returned as an `OrbitUpdate`.  The orthographic branch is
captured by `effective_radius` / `updated_projection`; then
`yaw_rot = DQuat::from_axis_angle(axis[1], yaw)`,
`pitch_rot = DQuat::from_axis_angle(axis[0], -pitch)`,
`new_rotation = yaw_rot * pitch_rot`,
`new_position = focus + new_rotation * DVec3::new(0.0, 0.0, radius)`, and the
transform starts from `Transform::IDENTITY` and receives the rotation (via
`*=`) and the translation (via `+=`). -/
noncomputable def update_orbit_transform (yaw pitch radius : ℝ) (focus : DVec3)
    (projection : Projection) (axis : Axis3) : OrbitUpdate :=
  let radius2 := effective_radius projection radius
  let projection2 := updated_projection projection radius
  let yaw_rot := DQuat.from_axis_angle axis.a1 yaw
  let pitch_rot := DQuat.from_axis_angle axis.a0 (-pitch)
  let new_rotation := yaw_rot.mul pitch_rot
  let new_position := focus.add (new_rotation.mul_vec3 ⟨0, 0, radius2⟩)
  { transform :=
      { translation := Transform.IDENTITY.translation.add new_position.as_vec3,
        rotation := Transform.IDENTITY.rotation.mul new_rotation.as_quat,
        scale := Transform.IDENTITY.scale },
    position := new_position,
    projection := projection2 }

/-- `bevy` `FloatExt::lerp` for `f32`/`f64`: `self + ((rhs - self) * s)`. -/
noncomputable def lerp (a b s : ℝ) : ℝ := a + (b - a) * s

/-- `src/util.rs` `lerp_and_snap_f32` (lines 60-67): exponential-decay lerp
with base `smoothness^7` raised to `dt`, snapped exactly to `to` when
`smoothness < 1.0` and the result is within `EPSILON` of `to`. -/
noncomputable def lerp_and_snap_f32 (from' to' smoothness dt : ℝ) : ℝ :=
  let t := smoothness ^ (7 : ℕ)
  let new_value := lerp from' to' (1 - t ^ dt)
  if smoothness < 1 ∧ approx_equal new_value to' then to' else new_value

/-- `src/util.rs` `lerp_and_snap_f64` (lines 69-76). -/
noncomputable def lerp_and_snap_f64 (from' to' smoothness dt : ℝ) : ℝ :=
  let t := smoothness ^ (7 : ℕ)
  let new_value := lerp from' to' (1 - t ^ dt)
  if smoothness < 1 ∧ approx_equal_f64 new_value to' then to' else new_value

/-- `src/util.rs` `lerp_and_snap_vec3` (lines 78-85).  Note that the snap
branch of the source is `new_value.x = to.x;`: only the `x` component is
written. -/
noncomputable def lerp_and_snap_vec3 (from' to' : Vec3) (smoothness dt : ℝ) : Vec3 :=
  let t := smoothness ^ (7 : ℕ)
  let new_value := from'.lerp to' (1 - t ^ dt)
  if smoothness < 1 ∧ approx_equal ((new_value.sub to').length) 0 then
    { new_value with x := to'.x }
  else new_value

/-- `src/util.rs` `lerp_and_snap_dvec3` (lines 87-94), same `x`-only snap
branch. -/
noncomputable def lerp_and_snap_dvec3 (from' to' : DVec3) (smoothness dt : ℝ) : DVec3 :=
  let t := smoothness ^ (7 : ℕ)
  let new_value := from'.lerp to' (1 - t ^ dt)
  if smoothness < 1 ∧ approx_equal_f64 ((new_value.sub to').length) 0 then
    { new_value with x := to'.x }
  else new_value

/-- The standard Y-up axis triple (`AXIS` in the source's tests). -/
def AXIS : Axis3 := ⟨⟨1, 0, 0⟩, ⟨0, 1, 0⟩, ⟨0, 0, 1⟩⟩

/-- The Z-up axis triple (`AXIS_Z_UP` in the source's tests). -/
def AXIS_Z_UP : Axis3 := ⟨⟨1, 0, 0⟩, ⟨0, 0, 1⟩, ⟨0, 1, 0⟩⟩

/-- A concrete perspective projection used to instantiate theorems. -/
noncomputable def samplePerspective : PerspectiveProjection := ⟨1, 1 / 10, 1000⟩

/-- Quaternion identity is a left unit for the Hamilton product. -/
theorem DQuat.IDENTITY_mul (q : DQuat) : DQuat.IDENTITY.mul q = q := by
  ext <;> simp [DQuat.mul, DQuat.IDENTITY]

/-- The identity transform's translation is the zero vector, a left unit for
vector addition. -/
theorem IDENTITY_translation_add (v : DVec3) :
    Transform.IDENTITY.translation.add v = v := by
  ext <;> simp [DVec3.add, Transform.IDENTITY]

/-- Claim C7: with `smoothness = 1.0` the scalar smoothing primitives return
`from` unchanged for every `from`, `to` and `delta_time`, and in particular
never snap to `to`. -/
theorem C7_smoothness_one_is_constant (from' to' dt : ℝ) :
    lerp_and_snap_f32 from' to' 1 dt = from'
    ∧ lerp_and_snap_f64 from' to' 1 dt = from' := by
  constructor <;>
    simp [lerp_and_snap_f32, lerp_and_snap_f64, lerp, Real.one_rpow]

/-- Claim C6 counterexample: with `delta_time = 0`, `from = 0`,
`to = 1/2000` and `smoothness = 1/2`, the scalar smoothing primitive does not
return `from`: the lerp leaves the value at `0`, which is within the snap
epsilon `0.001` of `to`, so the result is snapped to `to = 1/2000 ≠ 0`. -/
theorem C6_counterexample :
    lerp_and_snap_f64 0 (1 / 2000) (1 / 2) 0 = 1 / 2000
    ∧ (1 / 2000 : ℝ) ≠ 0 := by
  constructor
  · simp only [lerp_and_snap_f64, lerp, approx_equal_f64, EPSILON, Real.rpow_zero]
    norm_num [abs_lt]
  · norm_num

/-- Claim C6 amended: for every `from`, `to` and `smoothness`, calling the
scalar smoothing primitive with `delta_time = 0` returns `from` unchanged,
except when `smoothness < 1` and `from` is already within the snap epsilon
`0.001` of `to`, in which case it returns `to`. -/
theorem C6_dt_zero (from' to' smoothness : ℝ) :
    lerp_and_snap_f32 from' to' smoothness 0
      = (if smoothness < 1 ∧ approx_equal from' to' then to' else from')
    ∧ lerp_and_snap_f64 from' to' smoothness 0
      = (if smoothness < 1 ∧ approx_equal_f64 from' to' then to' else from') := by
  constructor <;>
    simp [lerp_and_snap_f32, lerp_and_snap_f64, lerp, Real.rpow_zero]

/-- Claim C5: when the projection is `Orthographic(near, far, scale)` the
Transform Updater writes `radius` into the projection's `scale` field (leaving
`near` and `far` unchanged) and positions the camera with the overridden
radius `(near + far) / 2`; when the projection is `Perspective` the projection
is returned unchanged and the incoming radius is used for positioning. -/
theorem C5_orthographic_override (yaw pitch radius : ℝ) (focus : DVec3)
    (axis : Axis3) (near far scale : ℝ) (pp : PerspectiveProjection) :
    (update_orbit_transform yaw pitch radius focus
        (.Orthographic ⟨near, far, scale⟩) axis).projection
      = .Orthographic ⟨near, far, radius⟩
    ∧ (update_orbit_transform yaw pitch radius focus
        (.Orthographic ⟨near, far, scale⟩) axis).position
      = focus.add (((DQuat.from_axis_angle axis.a1 yaw).mul
          (DQuat.from_axis_angle axis.a0 (-pitch))).mul_vec3
            ⟨0, 0, (near + far) / 2⟩)
    ∧ (update_orbit_transform yaw pitch radius focus
        (.Perspective pp) axis).projection = .Perspective pp
    ∧ (update_orbit_transform yaw pitch radius focus
        (.Perspective pp) axis).position
      = focus.add (((DQuat.from_axis_angle axis.a1 yaw).mul
          (DQuat.from_axis_angle axis.a0 (-pitch))).mul_vec3 ⟨0, 0, radius⟩) :=
  ⟨rfl, rfl, rfl, rfl⟩

/-- Claim C3: for every yaw, pitch, radius, focus, axis triple and projection,
the Transform Updater's output orientation is exactly
`from_axis_angle(axis[1], yaw) * from_axis_angle(axis[0], -pitch)` (yaw about
the up axis composed, in this order, with pitch about the right axis with
angle `-pitch`); the output position is `focus + rotation * (0, 0, r)` where
`r` is the effective radius (the incoming radius, unless overridden by the
orthographic branch); and the transform's translation equals that position
with no additional offset. -/
theorem C3_rotation_and_position (yaw pitch radius : ℝ) (focus : DVec3)
    (axis : Axis3) (projection : Projection) :
    (update_orbit_transform yaw pitch radius focus projection
        axis).transform.rotation
      = (DQuat.from_axis_angle axis.a1 yaw).mul
          (DQuat.from_axis_angle axis.a0 (-pitch))
    ∧ (update_orbit_transform yaw pitch radius focus projection axis).position
      = focus.add (((DQuat.from_axis_angle axis.a1 yaw).mul
          (DQuat.from_axis_angle axis.a0 (-pitch))).mul_vec3
            ⟨0, 0, effective_radius projection radius⟩)
    ∧ (update_orbit_transform yaw pitch radius focus projection
        axis).transform.translation
      = (update_orbit_transform yaw pitch radius focus projection
          axis).position := by
  refine ⟨?_, rfl, ?_⟩
  · exact DQuat.IDENTITY_mul _
  · exact IDENTITY_translation_add _

/-- The `f32` and `f64` smoothing primitives are the same function of the
real-valued model (their sources differ only in the floating-point width). -/
theorem lerp_and_snap_f32_eq_f64 (a b s d : ℝ) :
    lerp_and_snap_f32 a b s d = lerp_and_snap_f64 a b s d := rfl

/-- The scalar smoothing primitive never leaves the closed interval spanned by
`from` and `to`, for smoothness in `[0,1]` and non-negative `delta_time`. -/
theorem lerp_and_snap_f64_bounds (a b s d : ℝ) (h0 : 0 ≤ s) (h1 : s ≤ 1)
    (hd : 0 ≤ d) :
    min a b ≤ lerp_and_snap_f64 a b s d ∧ lerp_and_snap_f64 a b s d ≤ max a b := by
  have ht0 : (0 : ℝ) ≤ s ^ (7 : ℕ) := pow_nonneg h0 7
  have ht1 : s ^ (7 : ℕ) ≤ 1 := pow_le_one₀ h0 h1
  have hr0 : 0 ≤ (s ^ (7 : ℕ)) ^ d := Real.rpow_nonneg ht0 d
  have hr1 : (s ^ (7 : ℕ)) ^ d ≤ 1 := Real.rpow_le_one ht0 ht1 hd
  simp only [lerp_and_snap_f64, lerp]
  split_ifs with h
  · exact ⟨min_le_right a b, le_max_right a b⟩
  · constructor
    · rcases le_total a b with hab | hab
      · rw [min_eq_left hab]; nlinarith
      · rw [min_eq_right hab]; nlinarith
    · rcases le_total a b with hab | hab
      · rw [max_eq_right hab]; nlinarith
      · rw [max_eq_left hab]; nlinarith

/-- Claim C10: for smoothness in `[0,1]` and `delta_time ≥ 0` the scalar
smoothing primitives never overshoot: the result lies in the closed interval
between `from` and `to` (snapping can only move the result to `to`, which is
an endpoint). -/
theorem C10_never_overshoots (from' to' smoothness dt : ℝ)
    (h0 : 0 ≤ smoothness) (h1 : smoothness ≤ 1) (hdt : 0 ≤ dt) :
    (min from' to' ≤ lerp_and_snap_f32 from' to' smoothness dt
      ∧ lerp_and_snap_f32 from' to' smoothness dt ≤ max from' to')
    ∧ (min from' to' ≤ lerp_and_snap_f64 from' to' smoothness dt
      ∧ lerp_and_snap_f64 from' to' smoothness dt ≤ max from' to') :=
  ⟨lerp_and_snap_f64_bounds from' to' smoothness dt h0 h1 hdt,
   lerp_and_snap_f64_bounds from' to' smoothness dt h0 h1 hdt⟩

/-- Claim C10 witness at `from = 0`, `to = 1`, `smoothness = 1/2`,
`delta_time = 1`. -/
theorem C10_witness :
    (0 : ℝ) ≤ 1 / 2 ∧ (1 / 2 : ℝ) ≤ 1 ∧ (0 : ℝ) ≤ 1
    ∧ ((min 0 1 ≤ lerp_and_snap_f32 0 1 (1 / 2) 1
        ∧ lerp_and_snap_f32 0 1 (1 / 2) 1 ≤ max 0 1)
      ∧ (min 0 1 ≤ lerp_and_snap_f64 0 1 (1 / 2) 1
        ∧ lerp_and_snap_f64 0 1 (1 / 2) 1 ≤ max 0 1)) :=
  ⟨by norm_num, by norm_num, by norm_num,
   C10_never_overshoots 0 1 (1 / 2) 1 (by norm_num) (by norm_num) (by norm_num)⟩

/-- Composing two exponential-decay lerps toward the same target over times
`d` and `e` equals one lerp over `d + e` (for a positive decay base). -/
theorem lerp_comp (a b t d e : ℝ) (ht : 0 < t) :
    lerp (lerp a b (1 - t ^ d)) b (1 - t ^ e) = lerp a b (1 - t ^ (d + e)) := by
  simp only [lerp]
  rw [Real.rpow_add ht]
  ring

/-- One smoothing step after another, over times `d` then `e ≥ 0`, equals a
single step over `d + e`, for smoothness strictly between `0` and `1`:
composition commutes with the snap-to-target branch. -/
theorem lerp_and_snap_f64_step (a b s d e : ℝ) (hs0 : 0 < s) (hs1 : s < 1)
    (he : 0 ≤ e) :
    lerp_and_snap_f64 (lerp_and_snap_f64 a b s d) b s e
      = lerp_and_snap_f64 a b s (d + e) := by
  have ht0 : (0 : ℝ) < s ^ (7 : ℕ) := pow_pos hs0 7
  have ht1 : s ^ (7 : ℕ) ≤ 1 := pow_le_one₀ hs0.le hs1.le
  simp only [lerp_and_snap_f64]
  by_cases h : s < 1 ∧ approx_equal_f64 (lerp a b (1 - (s ^ (7 : ℕ)) ^ d)) b
  · rw [if_pos h]
    have hb : lerp b b (1 - (s ^ (7 : ℕ)) ^ e) = b := by simp [lerp]
    have houter : s < 1 ∧ approx_equal_f64 (lerp b b (1 - (s ^ (7 : ℕ)) ^ e)) b := by
      refine ⟨hs1, ?_⟩
      rw [hb]
      simp [approx_equal_f64, EPSILON]
      norm_num
    rw [if_pos houter]
    have h1 : lerp a b (1 - (s ^ (7 : ℕ)) ^ (d + e)) - b
        = (s ^ (7 : ℕ)) ^ e * (lerp a b (1 - (s ^ (7 : ℕ)) ^ d) - b) := by
      simp only [lerp]
      rw [Real.rpow_add ht0]
      ring
    have hsnap : approx_equal_f64 (lerp a b (1 - (s ^ (7 : ℕ)) ^ (d + e))) b := by
      have hd2 := h.2
      unfold approx_equal_f64 at hd2 ⊢
      rw [h1, abs_mul, abs_of_nonneg (Real.rpow_nonneg ht0.le e)]
      calc (s ^ (7 : ℕ)) ^ e * |lerp a b (1 - (s ^ (7 : ℕ)) ^ d) - b|
          ≤ 1 * |lerp a b (1 - (s ^ (7 : ℕ)) ^ d) - b| := by
            apply mul_le_mul_of_nonneg_right _ (abs_nonneg _)
            exact Real.rpow_le_one ht0.le ht1 he
        _ = |lerp a b (1 - (s ^ (7 : ℕ)) ^ d) - b| := one_mul _
        _ < EPSILON := hd2
    rw [if_pos ⟨hs1, hsnap⟩]
  · rw [if_neg h, lerp_comp a b (s ^ (7 : ℕ)) d e ht0]

/-- Folding the smoothing primitive over a non-empty list of non-negative
time steps equals a single application over their sum, for smoothness
strictly between `0` and `1`. -/
theorem foldl_lerp_and_snap_f64 (b s : ℝ) (hs0 : 0 < s) (hs1 : s < 1) :
    ∀ (l : List ℝ), l ≠ [] → (∀ d ∈ l, 0 ≤ d) → ∀ a : ℝ,
      l.foldl (fun v d => lerp_and_snap_f64 v b s d) a
        = lerp_and_snap_f64 a b s l.sum := by
  intro l
  induction l with
  | nil => intro h; exact absurd rfl h
  | cons d l' ih =>
    intro _ hpos a
    rw [List.foldl_cons, List.sum_cons]
    by_cases hl : l' = []
    · subst hl
      rw [List.foldl_nil, List.sum_nil, add_zero]
    · have htail : ∀ x ∈ l', (0 : ℝ) ≤ x :=
        fun x hx => hpos x (List.mem_cons_of_mem _ hx)
      have hsum : (0 : ℝ) ≤ l'.sum := List.sum_nonneg htail
      rw [ih hl htail (lerp_and_snap_f64 a b s d)]
      exact lerp_and_snap_f64_step a b s d l'.sum hs0 hs1 hsum

/-- Claim C4: for smoothness strictly between `0` and `1`, applying the scalar
smoothing primitive successively over any non-empty sequence of non-negative
sub-intervals (each step starting from the previous result, with the same
target) equals one application over the total elapsed time. -/
theorem C4_framerate_independence (from' to' smoothness : ℝ)
    (hs0 : 0 < smoothness) (hs1 : smoothness < 1)
    (l : List ℝ) (hne : l ≠ []) (hpos : ∀ d ∈ l, 0 ≤ d) :
    l.foldl (fun v d => lerp_and_snap_f32 v to' smoothness d) from'
      = lerp_and_snap_f32 from' to' smoothness l.sum
    ∧ l.foldl (fun v d => lerp_and_snap_f64 v to' smoothness d) from'
      = lerp_and_snap_f64 from' to' smoothness l.sum := by
  have h64 := foldl_lerp_and_snap_f64 to' smoothness hs0 hs1 l hne hpos from'
  exact ⟨h64, h64⟩

/-- Claim C4 witness: the partition `[1, 1]` of `delta_time = 2`, at
`from = 0`, `to = 1`, `smoothness = 1/2`. -/
theorem C4_witness :
    (0 : ℝ) < 1 / 2 ∧ (1 / 2 : ℝ) < 1 ∧ ([(1 : ℝ), 1] ≠ [])
    ∧ (∀ d ∈ [(1 : ℝ), 1], 0 ≤ d)
    ∧ [(1 : ℝ), 1].foldl (fun v d => lerp_and_snap_f64 v 1 (1 / 2) d) 0
        = lerp_and_snap_f64 0 1 (1 / 2) ([(1 : ℝ), 1].sum) := by
  refine ⟨by norm_num, by norm_num, by simp, ?_, ?_⟩
  · intro d hd
    rcases List.mem_cons.mp hd with rfl | hd'
    · norm_num
    · rcases List.mem_cons.mp hd' with rfl | hd''
      · norm_num
      · simp at hd''
  · refine (C4_framerate_independence 0 1 (1 / 2) (by norm_num) (by norm_num)
      [1, 1] (by simp) ?_).2
    intro d hd
    rcases List.mem_cons.mp hd with rfl | hd'
    · norm_num
    · rcases List.mem_cons.mp hd' with rfl | hd''
      · norm_num
      · simp at hd''

/-- A vector has length zero exactly when it is the zero vector. -/
theorem DVec3.length_eq_zero_iff (v : DVec3) : v.length = 0 ↔ v = ⟨0, 0, 0⟩ := by
  unfold DVec3.length DVec3.dot
  constructor
  · intro h
    have hnn : (0 : ℝ) ≤ v.x * v.x + v.y * v.y + v.z * v.z :=
      add_nonneg (add_nonneg (mul_self_nonneg _) (mul_self_nonneg _)) (mul_self_nonneg _)
    have h0 : v.x * v.x + v.y * v.y + v.z * v.z = 0 := by
      have hle := Real.sqrt_eq_zero'.mp h
      linarith
    have hx : v.x = 0 := by
      have h1 : v.x * v.x ≤ 0 := by nlinarith [mul_self_nonneg v.y, mul_self_nonneg v.z]
      exact mul_self_eq_zero.mp (le_antisymm h1 (mul_self_nonneg v.x))
    have hy : v.y = 0 := by
      have h1 : v.y * v.y ≤ 0 := by nlinarith [mul_self_nonneg v.x, mul_self_nonneg v.z]
      exact mul_self_eq_zero.mp (le_antisymm h1 (mul_self_nonneg v.y))
    have hz : v.z = 0 := by
      have h1 : v.z * v.z ≤ 0 := by nlinarith [mul_self_nonneg v.x, mul_self_nonneg v.y]
      exact mul_self_eq_zero.mp (le_antisymm h1 (mul_self_nonneg v.z))
    ext <;> assumption
  · rintro rfl
    norm_num [Real.sqrt_zero]

/-- Claim C1, evaluation of the code at the failing input: at
`from = (0, 0, 1999/2000)`, `to = (0, 0, 1)`, `smoothness = 1/2`, `dt = 1`,
the lerped vector `(0, 0, 255999/256000)` is within Euclidean distance
`1/256000 < 0.001` of `to`, so the snap branch is taken — but both vector
primitives only write the `x` component (`new_value.x = to.x`), so they
return `(0, 0, 255999/256000)`, which is not `to`. -/
theorem C1_snap_only_writes_x :
    lerp_and_snap_vec3 ⟨0, 0, 1999 / 2000⟩ ⟨0, 0, 1⟩ (1 / 2) 1
      = ⟨0, 0, 255999 / 256000⟩
    ∧ lerp_and_snap_dvec3 ⟨0, 0, 1999 / 2000⟩ ⟨0, 0, 1⟩ (1 / 2) 1
      = ⟨0, 0, 255999 / 256000⟩
    ∧ (⟨0, 0, 255999 / 256000⟩ : DVec3) ≠ ⟨0, 0, 1⟩ := by
  have hnew : DVec3.lerp ⟨0, 0, (1999 / 2000 : ℝ)⟩ ⟨0, 0, 1⟩
      (1 - ((1 / 2 : ℝ) ^ (7 : ℕ)) ^ (1 : ℝ)) = ⟨0, 0, 255999 / 256000⟩ := by
    unfold DVec3.lerp DVec3.sub DVec3.smul DVec3.add
    rw [Real.rpow_one]
    simp only [DVec3.mk.injEq]
    norm_num
  have hsub : DVec3.sub ⟨0, 0, (255999 / 256000 : ℝ)⟩ ⟨0, 0, 1⟩
      = ⟨0, 0, -(1 / 256000)⟩ := by
    unfold DVec3.sub
    simp only [DVec3.mk.injEq]
    norm_num
  have hlen : DVec3.length ⟨0, 0, -(1 / 256000 : ℝ)⟩ = 1 / 256000 := by
    unfold DVec3.length DVec3.dot
    rw [show ((0 : ℝ) * 0 + 0 * 0 + -(1 / 256000) * -(1 / 256000))
        = (1 / 256000 : ℝ) ^ 2 by ring]
    rw [Real.sqrt_sq (by norm_num)]
  have hcond : (1 / 2 : ℝ) < 1 ∧ approx_equal (1 / 256000 : ℝ) 0 := by
    refine ⟨by norm_num, ?_⟩
    unfold approx_equal EPSILON
    norm_num [abs_lt]
  have key : lerp_and_snap_vec3 ⟨0, 0, 1999 / 2000⟩ ⟨0, 0, 1⟩ (1 / 2) 1
      = ⟨0, 0, 255999 / 256000⟩ := by
    simp only [lerp_and_snap_vec3, hnew, hsub, hlen]
    rw [if_pos hcond]
  refine ⟨key, key, ?_⟩
  simp only [ne_eq, DVec3.mk.injEq]
  norm_num

/-- Claim C9: for every focus and every axis triple, a zero offset yields
`yaw = 0`, `pitch = 0` and the floored radius `0.05`; and whenever the offset
is non-zero the returned radius is exactly the offset's length (the `0.05`
floor is applied only at offset exactly zero). -/
theorem C9_zero_offset_floor :
    (∀ (focus : DVec3) (axis : Axis3),
      calculate_from_translation_and_focus focus focus axis = (0, 0, 0.05))
    ∧ (∀ (translation focus : DVec3) (axis : Axis3), translation ≠ focus →
      (calculate_from_translation_and_focus translation focus axis).2.2
        = (translation.sub focus).length) := by
  constructor
  · intro focus axis
    have hsub : focus.sub focus = ⟨0, 0, 0⟩ := by
      unfold DVec3.sub
      simp
    have hoff : local_offset ⟨0, 0, 0⟩ axis = ⟨0, 0, 0⟩ := by
      unfold local_offset DMat3.from_cols DMat3.mul_vec3 DVec3.smul DVec3.add
      simp
    have hfr : floored_radius ⟨0, 0, 0⟩ = 0.05 := by
      unfold floored_radius
      rw [if_pos ((DVec3.length_eq_zero_iff _).mpr rfl)]
    have hzero : ((⟨0, 0, 0⟩ : DVec3) : DVec3).x = 0 := rfl
    simp only [calculate_from_translation_and_focus, hsub, hoff, hfr]
    have harg : atan2 (0 : ℝ) 0 = 0 := by
      unfold atan2
      have : (⟨0, 0⟩ : ℂ) = 0 := by
        apply Complex.ext <;> simp
      rw [this, Complex.arg_zero]
    have hpitch : Real.arcsin ((0 : ℝ) / 0.05) = 0 := by
      rw [zero_div, Real.arcsin_zero]
    simp only [Prod.mk.injEq]
    exact ⟨harg, hpitch, trivial⟩
  · intro translation focus axis hne
    have hsub : translation.sub focus ≠ ⟨0, 0, 0⟩ := by
      intro h
      apply hne
      have hx := congrArg DVec3.x h
      have hy := congrArg DVec3.y h
      have hz := congrArg DVec3.z h
      simp only [DVec3.sub] at hx hy hz
      ext <;> linarith
    have hlen : (translation.sub focus).length ≠ 0 := by
      intro h
      exact hsub ((DVec3.length_eq_zero_iff _).mp h)
    simp only [calculate_from_translation_and_focus, floored_radius]
    rw [if_neg hlen]

/-- Claim C9 witness: zero offset at `focus = (1, 2, 3)` with the standard
axis, and non-zero offset `(1, 0, 0)`. -/
theorem C9_witness :
    calculate_from_translation_and_focus ⟨1, 2, 3⟩ ⟨1, 2, 3⟩ AXIS = (0, 0, 0.05)
    ∧ ((⟨1, 0, 0⟩ : DVec3) ≠ ⟨0, 0, 0⟩)
    ∧ (calculate_from_translation_and_focus ⟨1, 0, 0⟩ ⟨0, 0, 0⟩ AXIS).2.2
        = (DVec3.sub ⟨1, 0, 0⟩ ⟨0, 0, 0⟩).length := by
  have hne : (⟨1, 0, 0⟩ : DVec3) ≠ ⟨0, 0, 0⟩ := by
    simp only [ne_eq, DVec3.mk.injEq]
    norm_num
  exact ⟨C9_zero_offset_floor.1 ⟨1, 2, 3⟩ AXIS, hne,
    C9_zero_offset_floor.2 ⟨1, 0, 0⟩ ⟨0, 0, 0⟩ AXIS hne⟩

/-- Multiplying by an orthonormal axis matrix preserves the squared norm. -/
theorem local_offset_norm (v : DVec3) (axis : Axis3) (h : axis.Orthonormal) :
    (local_offset v axis).dot (local_offset v axis) = v.dot v := by
  obtain ⟨h00, h11, h22, h01, h02, h12⟩ := h
  simp only [DVec3.dot] at h00 h11 h22 h01 h02 h12 ⊢
  unfold local_offset DMat3.from_cols DMat3.mul_vec3 DVec3.smul DVec3.add
  linear_combination (v.x * v.x) * h00 + (v.y * v.y) * h11 + (v.z * v.z) * h22
    + (2 * v.x * v.y) * h01 + (2 * v.x * v.z) * h02 + (2 * v.y * v.z) * h12

/-- Claim C8: for every translation, focus and orthonormal axis triple, the
radius computed by the Coordinate Converter is strictly positive and the
argument handed to `asin` — the basis-local `y` component divided by the
floored radius — always lies in `[-1, 1]`; consequently the pitch returned by
`calculate_from_translation_and_focus` is a genuine angle whose sine is that
ratio (no NaN can arise in the real-valued model). -/
theorem C8_asin_in_domain (translation focus : DVec3) (axis : Axis3)
    (h : axis.Orthonormal) :
    0 < floored_radius (translation.sub focus)
    ∧ -1 ≤ (local_offset (translation.sub focus) axis).y
          / floored_radius (translation.sub focus)
    ∧ (local_offset (translation.sub focus) axis).y
          / floored_radius (translation.sub focus) ≤ 1
    ∧ Real.sin (calculate_from_translation_and_focus translation focus axis).2.1
        = (local_offset (translation.sub focus) axis).y
          / floored_radius (translation.sub focus) := by
  have hnorm := local_offset_norm (translation.sub focus) axis h
  have hy2 : (local_offset (translation.sub focus) axis).y
      * (local_offset (translation.sub focus) axis).y
      ≤ (translation.sub focus).dot (translation.sub focus) := by
    rw [← hnorm]
    simp only [DVec3.dot]
    nlinarith [mul_self_nonneg (local_offset (translation.sub focus) axis).x,
      mul_self_nonneg (local_offset (translation.sub focus) axis).z]
  have hdotnn : (0 : ℝ) ≤ (translation.sub focus).dot (translation.sub focus) :=
    add_nonneg (add_nonneg (mul_self_nonneg _) (mul_self_nonneg _)) (mul_self_nonneg _)
  have main : 0 < floored_radius (translation.sub focus)
      ∧ -1 ≤ (local_offset (translation.sub focus) axis).y
            / floored_radius (translation.sub focus)
      ∧ (local_offset (translation.sub focus) axis).y
            / floored_radius (translation.sub focus) ≤ 1 := by
    by_cases h0 : (translation.sub focus).length = 0
    · have hdot : (translation.sub focus).dot (translation.sub focus) = 0 := by
        have hle := Real.sqrt_eq_zero'.mp h0
        linarith
      have hwy : (local_offset (translation.sub focus) axis).y = 0 := by
        have h1 : (local_offset (translation.sub focus) axis).y
            * (local_offset (translation.sub focus) axis).y ≤ 0 := by linarith
        exact mul_self_eq_zero.mp (le_antisymm h1 (mul_self_nonneg _))
      have hfr : floored_radius (translation.sub focus) = 0.05 := by
        unfold floored_radius
        rw [if_pos h0]
      rw [hfr, hwy]
      norm_num
    · have hfr : floored_radius (translation.sub focus)
          = (translation.sub focus).length := by
        unfold floored_radius
        rw [if_neg h0]
      have hlpos : 0 < (translation.sub focus).length :=
        lt_of_le_of_ne (Real.sqrt_nonneg _) (Ne.symm h0)
      have hsq : (translation.sub focus).length * (translation.sub focus).length
          = (translation.sub focus).dot (translation.sub focus) :=
        Real.mul_self_sqrt hdotnn
      rw [hfr]
      refine ⟨hlpos, ?_, ?_⟩
      · rw [le_div_iff₀ hlpos]
        nlinarith [mul_self_nonneg ((local_offset (translation.sub focus) axis).y
          + (translation.sub focus).length)]
      · rw [div_le_iff₀ hlpos]
        nlinarith [mul_self_nonneg ((local_offset (translation.sub focus) axis).y
          - (translation.sub focus).length)]
  refine ⟨main.1, main.2.1, main.2.2, ?_⟩
  simp only [calculate_from_translation_and_focus]
  exact Real.sin_arcsin main.2.1 main.2.2

/-- Claim C8 witness: the standard axis triple is orthonormal and the bounds
hold at `translation = (3, 4, 0)`, `focus = (0, 0, 0)`. -/
theorem C8_witness :
    AXIS.Orthonormal
    ∧ (0 < floored_radius (DVec3.sub ⟨3, 4, 0⟩ ⟨0, 0, 0⟩)
      ∧ -1 ≤ (local_offset (DVec3.sub ⟨3, 4, 0⟩ ⟨0, 0, 0⟩) AXIS).y
            / floored_radius (DVec3.sub ⟨3, 4, 0⟩ ⟨0, 0, 0⟩)
      ∧ (local_offset (DVec3.sub ⟨3, 4, 0⟩ ⟨0, 0, 0⟩) AXIS).y
            / floored_radius (DVec3.sub ⟨3, 4, 0⟩ ⟨0, 0, 0⟩) ≤ 1
      ∧ Real.sin (calculate_from_translation_and_focus ⟨3, 4, 0⟩ ⟨0, 0, 0⟩ AXIS).2.1
          = (local_offset (DVec3.sub ⟨3, 4, 0⟩ ⟨0, 0, 0⟩) AXIS).y
            / floored_radius (DVec3.sub ⟨3, 4, 0⟩ ⟨0, 0, 0⟩)) := by
  have hON : AXIS.Orthonormal := by
    unfold Axis3.Orthonormal AXIS DVec3.dot
    norm_num
  exact ⟨hON, C8_asin_in_domain ⟨3, 4, 0⟩ ⟨0, 0, 0⟩ AXIS hON⟩

/-- The sine of `atan2 y x` scaled by the norm of `(x, y)` recovers `y`. -/
theorem sqrt_mul_sin_atan2 (y x : ℝ) :
    Real.sqrt (x ^ 2 + y ^ 2) * Real.sin (atan2 y x) = y := by
  have habs : Complex.abs ⟨x, y⟩ = Real.sqrt (x ^ 2 + y ^ 2) := by
    rw [Complex.abs_apply, Complex.normSq_mk]
    ring_nf
  by_cases h : x ^ 2 + y ^ 2 = 0
  · have hy : y = 0 := by nlinarith [sq_nonneg x, sq_nonneg y]
    rw [h, hy, Real.sqrt_zero, zero_mul]
  · have hpos : 0 < x ^ 2 + y ^ 2 := lt_of_le_of_ne (by positivity) (Ne.symm h)
    have hs : Real.sqrt (x ^ 2 + y ^ 2) ≠ 0 := by
      intro h0
      have := Real.sqrt_eq_zero'.mp h0
      linarith
    unfold atan2
    rw [Complex.sin_arg, habs]
    show Real.sqrt (x ^ 2 + y ^ 2) * (y / Real.sqrt (x ^ 2 + y ^ 2)) = y
    field_simp

/-- The cosine of `atan2 y x` scaled by the norm of `(x, y)` recovers `x`. -/
theorem sqrt_mul_cos_atan2 (y x : ℝ) :
    Real.sqrt (x ^ 2 + y ^ 2) * Real.cos (atan2 y x) = x := by
  have habs : Complex.abs ⟨x, y⟩ = Real.sqrt (x ^ 2 + y ^ 2) := by
    rw [Complex.abs_apply, Complex.normSq_mk]
    ring_nf
  by_cases hz : (⟨x, y⟩ : ℂ) = 0
  · have hx : x = 0 := congrArg Complex.re hz
    have hy : y = 0 := congrArg Complex.im hz
    subst hx hy
    norm_num
  · have hs : Real.sqrt (x ^ 2 + y ^ 2) ≠ 0 := by
      intro h0
      apply hz
      have hle := Real.sqrt_eq_zero'.mp h0
      have hx : x = 0 := by nlinarith [sq_nonneg x, sq_nonneg y]
      have hy : y = 0 := by nlinarith [sq_nonneg x, sq_nonneg y]
      apply Complex.ext <;> simp [hx, hy]
    unfold atan2
    rw [Complex.cos_arg hz, habs]
    show Real.sqrt (x ^ 2 + y ^ 2) * (x / Real.sqrt (x ^ 2 + y ^ 2)) = x
    field_simp

/-- Rotating `(0, 0, r)` by the composed quaternion built from yaw about the
standard up axis `(0,1,0)` and `-pitch` about the standard right axis
`(1,0,0)` gives the spherical-coordinate point
`(r cos pitch sin yaw, r sin pitch, r cos pitch cos yaw)`. -/
theorem rot_standard (yaw pitch r : ℝ) :
    ((DQuat.from_axis_angle ⟨0, 1, 0⟩ yaw).mul
        (DQuat.from_axis_angle ⟨1, 0, 0⟩ (-pitch))).mul_vec3 ⟨0, 0, r⟩
      = ⟨r * Real.cos pitch * Real.sin yaw, r * Real.sin pitch,
         r * Real.cos pitch * Real.cos yaw⟩ := by
  have hsy : Real.sin yaw
      = 2 * Real.sin (yaw * 0.5) * Real.cos (yaw * 0.5) := by
    have h := Real.sin_two_mul (yaw * 0.5)
    rw [show 2 * (yaw * 0.5) = yaw by ring] at h
    exact h
  have hcy : Real.cos yaw = 2 * Real.cos (yaw * 0.5) ^ 2 - 1 := by
    have h := Real.cos_two_mul (yaw * 0.5)
    rw [show 2 * (yaw * 0.5) = yaw by ring] at h
    exact h
  have hsp : Real.sin pitch
      = 2 * Real.sin (pitch * 0.5) * Real.cos (pitch * 0.5) := by
    have h := Real.sin_two_mul (pitch * 0.5)
    rw [show 2 * (pitch * 0.5) = pitch by ring] at h
    exact h
  have hcp : Real.cos pitch = 2 * Real.cos (pitch * 0.5) ^ 2 - 1 := by
    have h := Real.cos_two_mul (pitch * 0.5)
    rw [show 2 * (pitch * 0.5) = pitch by ring] at h
    exact h
  have hpy : Real.sin (yaw * 0.5) ^ 2 + Real.cos (yaw * 0.5) ^ 2 = 1 :=
    Real.sin_sq_add_cos_sq (yaw * 0.5)
  have hpp : Real.sin (pitch * 0.5) ^ 2 + Real.cos (pitch * 0.5) ^ 2 = 1 :=
    Real.sin_sq_add_cos_sq (pitch * 0.5)
  unfold DQuat.from_axis_angle DQuat.mul DQuat.mul_vec3 DVec3.dot DVec3.cross
    DVec3.smul DVec3.add
  rw [show (-pitch) * 0.5 = -(pitch * 0.5) by ring, Real.sin_neg, Real.cos_neg]
  simp only [DVec3.mk.injEq]
  refine ⟨?_, ?_, ?_⟩
  · rw [hsy, hcp]
    linear_combination (-2 * r * Real.sin (yaw * 0.5) * Real.cos (yaw * 0.5)) * hpp
  · rw [hsp]
    linear_combination (2 * r * Real.sin (pitch * 0.5) * Real.cos (pitch * 0.5)) * hpy
  · rw [hcy, hcp]
    linear_combination
      (r * ((Real.sin (pitch * 0.5) ^ 2 + Real.cos (pitch * 0.5) ^ 2 - 1)
        - (2 * Real.cos (pitch * 0.5) ^ 2 - 1))) * hpy
      + (r * (-(2 * Real.cos (yaw * 0.5) ^ 2 - 1))) * hpp

/-- With the standard axis triple, taking the offset into the axis basis is
the identity. -/
theorem local_offset_AXIS (v : DVec3) : local_offset v AXIS = v := by
  unfold local_offset DMat3.from_cols DMat3.mul_vec3 DVec3.smul DVec3.add AXIS
  ext <;> simp

/-- Unfolding equation for the Coordinate Converter. -/
theorem calculate_eq (translation focus : DVec3) (axis : Axis3) :
    calculate_from_translation_and_focus translation focus axis
      = (atan2 (local_offset (translation.sub focus) axis).x
          (local_offset (translation.sub focus) axis).z,
         Real.arcsin ((local_offset (translation.sub focus) axis).y
          / floored_radius (translation.sub focus)),
         floored_radius (translation.sub focus)) := rfl

/-- Unfolding equation for the position output of the Transform Updater in
the perspective case. -/
theorem update_position_perspective (yaw pitch radius : ℝ) (focus : DVec3)
    (pp : PerspectiveProjection) (axis : Axis3) :
    (update_orbit_transform yaw pitch radius focus (.Perspective pp) axis).position
      = focus.add (((DQuat.from_axis_angle axis.a1 yaw).mul
          (DQuat.from_axis_angle axis.a0 (-pitch))).mul_vec3 ⟨0, 0, radius⟩) := rfl

/-- A ratio whose numerator is dominated in square by the positive
denominator lies in `[-1, 1]`. -/
theorem div_in_unit_interval (y L : ℝ) (hL : 0 < L) (h : y * y ≤ L * L) :
    -1 ≤ y / L ∧ y / L ≤ 1 := by
  constructor
  · rw [le_div_iff₀ hL]
    nlinarith [mul_self_nonneg (y + L)]
  · rw [div_le_iff₀ hL]
    nlinarith [mul_self_nonneg (y - L)]

/-- Claim C2 counterexample: with the Z-up axis triple (orthonormal), the
translation `(0, 5, 0)` and focus `(0, 0, 0)`, the Coordinate Converter
yields `(yaw, pitch, radius) = (0, 0, 5)` and feeding it back through the
Transform Updater (same focus and axis, perspective projection) produces the
position `(0, 0, 5) ≠ (0, 5, 0)`: the round trip does not reproduce the
original translation. -/
theorem C2_counterexample :
    AXIS_Z_UP.Orthonormal
    ∧ ((⟨0, 5, 0⟩ : DVec3) ≠ ⟨0, 0, 0⟩)
    ∧ (update_orbit_transform
        (calculate_from_translation_and_focus ⟨0, 5, 0⟩ ⟨0, 0, 0⟩ AXIS_Z_UP).1
        (calculate_from_translation_and_focus ⟨0, 5, 0⟩ ⟨0, 0, 0⟩ AXIS_Z_UP).2.1
        (calculate_from_translation_and_focus ⟨0, 5, 0⟩ ⟨0, 0, 0⟩ AXIS_Z_UP).2.2
        ⟨0, 0, 0⟩ (.Perspective samplePerspective) AXIS_Z_UP).position
      ≠ ⟨0, 5, 0⟩ := by
  have hON : AXIS_Z_UP.Orthonormal := by
    unfold Axis3.Orthonormal AXIS_Z_UP DVec3.dot
    norm_num
  have hne : (⟨0, 5, 0⟩ : DVec3) ≠ ⟨0, 0, 0⟩ := by
    simp only [ne_eq, DVec3.mk.injEq]
    norm_num
  refine ⟨hON, hne, ?_⟩
  have hcomp : DVec3.sub ⟨0, 5, 0⟩ ⟨0, 0, 0⟩ = ⟨0, 5, 0⟩ := by
    unfold DVec3.sub
    simp only [DVec3.mk.injEq]
    norm_num
  have hoff : local_offset ⟨0, 5, 0⟩ AXIS_Z_UP = ⟨0, 0, 5⟩ := by
    unfold local_offset DMat3.from_cols DMat3.mul_vec3 DVec3.smul DVec3.add
      AXIS_Z_UP
    simp only [DVec3.mk.injEq]
    norm_num
  have hlen : DVec3.length ⟨0, 5, 0⟩ = 5 := by
    unfold DVec3.length DVec3.dot
    rw [show ((0 : ℝ) * 0 + 5 * 5 + 0 * 0) = (5 : ℝ) ^ 2 by norm_num,
      Real.sqrt_sq (by norm_num)]
  have hfr : floored_radius ⟨0, 5, 0⟩ = 5 := by
    unfold floored_radius
    rw [hlen]
    norm_num
  have hyaw : atan2 (0 : ℝ) 5 = 0 := by
    unfold atan2
    have h5 : (⟨5, 0⟩ : ℂ) = ((5 : ℝ) : ℂ) := by
      apply Complex.ext <;> simp
    rw [h5, Complex.arg_ofReal_of_nonneg (by norm_num)]
  have hc : calculate_from_translation_and_focus ⟨0, 5, 0⟩ ⟨0, 0, 0⟩ AXIS_Z_UP
      = (0, 0, 5) := by
    rw [calculate_eq, hcomp, hoff, hfr]
    simp only [Prod.mk.injEq]
    refine ⟨hyaw, ?_, trivial⟩
    rw [zero_div, Real.arcsin_zero]
  rw [hc, update_position_perspective]
  have ha1 : AXIS_Z_UP.a1 = ⟨0, 0, 1⟩ := rfl
  have ha0 : AXIS_Z_UP.a0 = ⟨1, 0, 0⟩ := rfl
  rw [ha1, ha0]
  have hq1 : DQuat.from_axis_angle ⟨0, 0, 1⟩ ((0, 0, 5) : ℝ × ℝ × ℝ).1
      = ⟨0, 0, 0, 1⟩ := by
    unfold DQuat.from_axis_angle
    simp only [DQuat.mk.injEq]
    norm_num
  have hq2 : DQuat.from_axis_angle ⟨1, 0, 0⟩ (-((0, 0, 5) : ℝ × ℝ × ℝ).2.1)
      = ⟨0, 0, 0, 1⟩ := by
    unfold DQuat.from_axis_angle
    simp only [DQuat.mk.injEq]
    norm_num
  rw [hq1, hq2]
  have hmul : DQuat.mul ⟨0, 0, 0, 1⟩ ⟨0, 0, 0, 1⟩ = ⟨0, 0, 0, 1⟩ := by
    unfold DQuat.mul
    simp only [DQuat.mk.injEq]
    norm_num
  rw [hmul]
  have hmv : DQuat.mul_vec3 ⟨0, 0, 0, 1⟩ ⟨0, 0, ((0, 0, 5) : ℝ × ℝ × ℝ).2.2⟩
      = ⟨0, 0, 5⟩ := by
    unfold DQuat.mul_vec3 DVec3.dot DVec3.cross DVec3.smul DVec3.add
    simp only [DVec3.mk.injEq]
    norm_num
  rw [hmv]
  unfold DVec3.add
  simp only [ne_eq, DVec3.mk.injEq]
  norm_num

/-- Claim C2 amended: with the standard Y-up axis triple `AXIS` (right `X`,
up `Y`, forward `Z`) and a perspective projection, for every translation and
focus with non-zero difference, feeding the `(yaw, pitch, radius)` produced by
the Coordinate Converter into the Transform Updater (same focus and axis)
yields a position exactly equal to the original translation (exact equality in
the real-number model; in floating point this is equality up to rounding). -/
theorem C2_roundtrip_standard_axis (translation focus : DVec3)
    (pp : PerspectiveProjection) (h : translation ≠ focus) :
    (update_orbit_transform
        (calculate_from_translation_and_focus translation focus AXIS).1
        (calculate_from_translation_and_focus translation focus AXIS).2.1
        (calculate_from_translation_and_focus translation focus AXIS).2.2
        focus (.Perspective pp) AXIS).position = translation := by
  have hvne : translation.sub focus ≠ ⟨0, 0, 0⟩ := by
    intro h0
    apply h
    have hx := congrArg DVec3.x h0
    have hy := congrArg DVec3.y h0
    have hz := congrArg DVec3.z h0
    simp only [DVec3.sub] at hx hy hz
    ext <;> linarith
  have hlen0 : (translation.sub focus).length ≠ 0 := fun hl =>
    hvne ((DVec3.length_eq_zero_iff _).mp hl)
  have hlpos : 0 < (translation.sub focus).length :=
    lt_of_le_of_ne (Real.sqrt_nonneg _) (Ne.symm hlen0)
  have hdotnn : (0 : ℝ) ≤ (translation.sub focus).dot (translation.sub focus) :=
    add_nonneg (add_nonneg (mul_self_nonneg _) (mul_self_nonneg _)) (mul_self_nonneg _)
  have hdot : (translation.sub focus).length * (translation.sub focus).length
      = (translation.sub focus).dot (translation.sub focus) :=
    Real.mul_self_sqrt hdotnn
  have hfr : floored_radius (translation.sub focus)
      = (translation.sub focus).length := by
    unfold floored_radius
    rw [if_neg hlen0]
  have hy2 : (translation.sub focus).y * (translation.sub focus).y
      ≤ (translation.sub focus).length * (translation.sub focus).length := by
    rw [hdot]
    simp only [DVec3.dot]
    nlinarith [mul_self_nonneg (translation.sub focus).x,
      mul_self_nonneg (translation.sub focus).z]
  have hb := div_in_unit_interval (translation.sub focus).y
    (translation.sub focus).length hlpos hy2
  have hsin : Real.sin (Real.arcsin
      ((translation.sub focus).y / (translation.sub focus).length))
      = (translation.sub focus).y / (translation.sub focus).length :=
    Real.sin_arcsin hb.1 hb.2
  have harg : 1 - ((translation.sub focus).y / (translation.sub focus).length) ^ 2
      = ((translation.sub focus).x ^ 2 + (translation.sub focus).z ^ 2)
        / (translation.sub focus).length ^ 2 := by
    field_simp
    simp only [DVec3.dot] at hdot
    linear_combination hdot
  have hLcos : (translation.sub focus).length * Real.cos (Real.arcsin
      ((translation.sub focus).y / (translation.sub focus).length))
      = Real.sqrt ((translation.sub focus).x ^ 2 + (translation.sub focus).z ^ 2) := by
    rw [Real.cos_arcsin, harg, Real.sqrt_div (by positivity),
      Real.sqrt_sq hlpos.le]
    field_simp
  have key : ((DQuat.from_axis_angle ⟨0, 1, 0⟩
        (atan2 (translation.sub focus).x (translation.sub focus).z)).mul
      (DQuat.from_axis_angle ⟨1, 0, 0⟩ (-(Real.arcsin
        ((translation.sub focus).y / (translation.sub focus).length))))).mul_vec3
      ⟨0, 0, (translation.sub focus).length⟩ = translation.sub focus := by
    rw [rot_standard]
    have hswap : (translation.sub focus).x ^ 2 + (translation.sub focus).z ^ 2
        = (translation.sub focus).z ^ 2 + (translation.sub focus).x ^ 2 := by
      ring
    apply DVec3.ext
    · show (translation.sub focus).length * Real.cos (Real.arcsin _) * Real.sin _
        = (translation.sub focus).x
      rw [hLcos, hswap]
      exact sqrt_mul_sin_atan2 (translation.sub focus).x (translation.sub focus).z
    · show (translation.sub focus).length * Real.sin (Real.arcsin _)
        = (translation.sub focus).y
      rw [hsin]
      field_simp
    · show (translation.sub focus).length * Real.cos (Real.arcsin _) * Real.cos _
        = (translation.sub focus).z
      rw [hLcos, hswap]
      exact sqrt_mul_cos_atan2 (translation.sub focus).x (translation.sub focus).z
  rw [calculate_eq, update_position_perspective, local_offset_AXIS, hfr]
  have ha1 : AXIS.a1 = ⟨0, 1, 0⟩ := rfl
  have ha0 : AXIS.a0 = ⟨1, 0, 0⟩ := rfl
  rw [ha1, ha0]
  show focus.add (((DQuat.from_axis_angle ⟨0, 1, 0⟩
      (atan2 (translation.sub focus).x (translation.sub focus).z)).mul
    (DQuat.from_axis_angle ⟨1, 0, 0⟩ (-(Real.arcsin
      ((translation.sub focus).y / (translation.sub focus).length))))).mul_vec3
    ⟨0, 0, (translation.sub focus).length⟩) = translation
  rw [key]
  unfold DVec3.add DVec3.sub
  ext <;> simp

/-- Claim C2 witness: the amended round trip at `translation = (3, 4, 12)`,
`focus = (0, 0, 0)`, standard axis, sample perspective projection. -/
theorem C2_witness :
    ((⟨3, 4, 12⟩ : DVec3) ≠ ⟨0, 0, 0⟩)
    ∧ (update_orbit_transform
        (calculate_from_translation_and_focus ⟨3, 4, 12⟩ ⟨0, 0, 0⟩ AXIS).1
        (calculate_from_translation_and_focus ⟨3, 4, 12⟩ ⟨0, 0, 0⟩ AXIS).2.1
        (calculate_from_translation_and_focus ⟨3, 4, 12⟩ ⟨0, 0, 0⟩ AXIS).2.2
        ⟨0, 0, 0⟩ (.Perspective samplePerspective) AXIS).position = ⟨3, 4, 12⟩ := by
  have hne : (⟨3, 4, 12⟩ : DVec3) ≠ ⟨0, 0, 0⟩ := by
    simp only [ne_eq, DVec3.mk.injEq]
    norm_num
  exact ⟨hne, C2_roundtrip_standard_axis ⟨3, 4, 12⟩ ⟨0, 0, 0⟩ samplePerspective hne⟩

end Orbit
